import Mathlib

/-!
Shallow embedding of the image-typesetting tool (`src/utils.rs` and
`src/main.rs`) and proofs about it.

Conventions of the embedding:
* Rust `u32`/`u64`/`usize` values are `Nat`; wherever Rust wraps
  (release-mode `as u32` casts and `u32` arithmetic) the reduction
  `% 2^32` is written explicitly, and the saturating `f64 as u32` cast
  is modelled by `u32_of_int`.
* `f64` arithmetic on the small decimal quantities of this program is
  modelled exactly in `ℚ`; `f64::round` (round half away from zero) is
  `rustRound`.
* Fallible operations return `Option`/`Except`; a Rust panic
  (division by zero in `row_and_col_from_index`) is modelled as `none`.
-/

namespace ImageTool

/-- The modulus of Rust `u32` arithmetic. -/
def U32_MOD : Nat := 4294967296

/-- Rust wrapping `u32` addition (release build semantics). -/
def u32_add (a b : Nat) : Nat := (a + b) % U32_MOD

/-- Rust wrapping `u32` multiplication (release build semantics). -/
def u32_mul (a b : Nat) : Nat := (a * b) % U32_MOD

/-- Rust wrapping `u32` subtraction (release build semantics). -/
def u32_sub (a b : Nat) : Nat := (a + (U32_MOD - b % U32_MOD)) % U32_MOD

/-- Rust `f64::round`: round half away from zero. -/
def rustRound (q : ℚ) : ℤ := if 0 ≤ q then ⌊q + 1 / 2⌋ else ⌈q - 1 / 2⌉

/-- Rust saturating `f64 as u32` cast, applied to an already-integral value:
negative values go to `0`, values above `u32::MAX` go to `u32::MAX`. -/
def u32_of_int (z : ℤ) : Nat :=
  if z < 0 then 0 else if (U32_MOD : ℤ) - 1 < z then U32_MOD - 1 else z.toNat

/-- Convert a quantity already multiplied by the density:
`(x).round() as u32` (main.rs 118-134). -/
def u32_of_round (q : ℚ) : Nat := u32_of_int (rustRound q)

/-- `(x).ceil() as u32` (main.rs 217-220). -/
def u32_of_ceil (q : ℚ) : Nat := u32_of_int ⌈q⌉

/-! ### `BatchIter` (src/utils.rs)

`BatchIter::next` (utils.rs 21-34) pulls up to `batch_size` items from the
underlying iterator and yields the collected `Vec` unless it is empty.
`batchNext` is that step on the remaining input list; `batchList` is the
whole sequence of chunks the iterator yields until exhaustion. -/

/-- One call of `BatchIter::next` (utils.rs 21-34): take up to `batch_size`
items from the front of the remaining input; an empty batch means `None`.
For `batch_size = 0` the loop body never runs, so no item of the
underlying iterator is consumed and the result is `None`. -/
def batchNext (batch_size : Nat) (l : List α) : Option (List α × List α) :=
  if (l.take batch_size).isEmpty then none
  else some (l.take batch_size, l.drop batch_size)

/-- All chunks yielded by `BatchIter` over the input `l` until `next`
returns `None`. -/
def batchList (batch_size : Nat) : List α → List (List α)
  | [] => []
  | x :: xs =>
    if _h : batch_size = 0 then []
    else (x :: xs).take batch_size :: batchList batch_size ((x :: xs).drop batch_size)
termination_by l => l.length
decreasing_by simp only [List.length_drop, List.length_cons]; omega

/-- `batchList` is exactly the iteration of `BatchIter::next`. -/
theorem batchList_eq_next (b : Nat) (l : List α) :
    batchList b l =
      match batchNext b l with
      | none => []
      | some (c, rest) => c :: batchList b rest := by
  match l with
  | [] => simp [batchList, batchNext]
  | x :: xs =>
    by_cases hb : b = 0
    · subst hb; simp [batchList, batchNext]
    · rw [batchList]
      simp only [hb, dite_false]
      have htake : ((x :: xs).take b).isEmpty = false := by
        cases b with
        | zero => exact absurd rfl hb
        | succ n => simp [List.take]
      simp [batchNext, htake]

theorem batchList_nil (b : Nat) : batchList b ([] : List α) = [] := by
  simp [batchList]

theorem batchList_zero (l : List α) : batchList 0 l = [] := by
  cases l <;> simp [batchList]

/-- Concatenating the chunks restores the input (for a positive batch size). -/
theorem batchList_flatten (b : Nat) (hb : 1 ≤ b) (l : List α) :
    (batchList b l).flatten = l := by
  induction l using batchList.induct b with
  | case1 => simp [batchList]
  | case2 x xs h => omega
  | case3 x xs h ih =>
    rw [batchList]
    simp only [h, dite_false, List.flatten_cons, ih, List.take_append_drop]

/-- Every chunk has length at most `b`. -/
theorem batchList_length_le (b : Nat) (l : List α) :
    ∀ c ∈ batchList b l, c.length ≤ b := by
  induction l using batchList.induct b with
  | case1 => simp [batchList]
  | case2 x xs h => subst h; simp [batchList_zero]
  | case3 x xs h ih =>
    rw [batchList]
    simp only [h, dite_false]
    intro c hc
    rcases List.mem_cons.mp hc with hcl | hcl
    · subst hcl; simp [List.length_take_le b (x :: xs)]
    · exact ih c hcl

/-- Ceiling-division recurrence used for counting chunks. -/
theorem ceil_div_step (b k : Nat) (hb : 1 ≤ b) (hk : 1 ≤ k) :
    (k - b + b - 1) / b + 1 = (k + b - 1) / b := by
  by_cases hle : k ≤ b
  · have h0 : k - b + b - 1 = b - 1 := by omega
    have h2 : (b - 1) / b = 0 := Nat.div_eq_of_lt (by omega)
    have h3 : (k + b - 1) / b = 1 := Nat.div_eq_of_lt_le (by omega) (by omega)
    rw [h0, h2, h3]
  · have e1 : k - b + b - 1 = k - 1 := by omega
    have e2 : k + b - 1 = k - 1 + b := by omega
    rw [e1, e2, Nat.add_div_right _ (by omega)]

/-- The number of chunks is `⌈length / b⌉` (for a positive batch size). -/
theorem batchList_count (b : Nat) (hb : 1 ≤ b) (l : List α) :
    (batchList b l).length = (l.length + b - 1) / b := by
  induction l using batchList.induct b with
  | case1 =>
    simp only [batchList_nil, List.length_nil, Nat.zero_add]
    exact (Nat.div_eq_of_lt (by omega)).symm
  | case2 x xs h => omega
  | case3 x xs h ih =>
    rw [batchList]
    simp only [h, dite_false, List.length_cons, ih, List.length_drop]
    exact ceil_div_step b _ hb (by simp)

/-- All chunks except possibly the last have length exactly `b`. -/
theorem batchList_dropLast (b : Nat) (l : List α) :
    ∀ c ∈ (batchList b l).dropLast, c.length = b := by
  induction l using batchList.induct b with
  | case1 => simp [batchList_nil]
  | case2 x xs h => subst h; simp [batchList_zero]
  | case3 x xs h ih =>
    rw [batchList]
    simp only [h, dite_false]
    cases hrest : batchList b ((x :: xs).drop b) with
    | nil => simp
    | cons c2 cs =>
      intro c hc
      have hdrop : (x :: xs).drop b ≠ [] := by
        intro hnil
        rw [hnil, batchList_nil] at hrest
        exact List.noConfusion hrest
      have hlen : b < (x :: xs).length := by
        by_contra hle
        exact hdrop (List.drop_eq_nil_of_le (by omega))
      rcases List.mem_cons.mp (by simpa [hrest, List.dropLast_cons₂] using hc) with hcl | hcl
      · subst hcl
        simp only [List.length_take]
        omega
      · rw [hrest] at ih
        exact ih c hcl

/-- Claim C1: for every batch size `b = nh * nv` with `nh, nv ≥ 1` and every
finite input sequence of `k` items, `BatchIter` yields exactly `⌈k / b⌉`
chunks; every chunk has length at most `b`; every chunk except possibly the
last has length exactly `b`; concatenating the chunks in order reproduces the
original sequence; and an empty input yields zero chunks. -/
theorem batchIter_spec (nh nv : Nat) (hnh : 1 ≤ nh) (hnv : 1 ≤ nv) (l : List α) :
    (batchList (nh * nv) l).length = (l.length + nh * nv - 1) / (nh * nv) ∧
    (∀ c ∈ batchList (nh * nv) l, c.length ≤ nh * nv) ∧
    (∀ c ∈ (batchList (nh * nv) l).dropLast, c.length = nh * nv) ∧
    (batchList (nh * nv) l).flatten = l ∧
    batchList (nh * nv) ([] : List α) = [] := by
  have hb : 1 ≤ nh * nv := Nat.one_le_iff_ne_zero.mpr (Nat.mul_ne_zero (by omega) (by omega))
  exact ⟨batchList_count _ hb l, batchList_length_le _ l, batchList_dropLast _ l,
    batchList_flatten _ hb l, batchList_nil _⟩

theorem batchIter_spec_witness :
    (batchList (2 * 2) [0, 1, 2, 3, 4]).length = (5 + 2 * 2 - 1) / (2 * 2) ∧
    (∀ c ∈ batchList (2 * 2) [0, 1, 2, 3, 4], c.length ≤ 2 * 2) ∧
    (∀ c ∈ (batchList (2 * 2) [0, 1, 2, 3, 4]).dropLast, c.length = 2 * 2) ∧
    (batchList (2 * 2) [0, 1, 2, 3, 4]).flatten = [0, 1, 2, 3, 4] ∧
    batchList (2 * 2) ([] : List Nat) = [] :=
  batchIter_spec 2 2 (by decide) (by decide) [0, 1, 2, 3, 4]

/-- Claim C9: for batch size 0, `BatchIter::next` returns `None` on every call
regardless of the remaining input (no item is consumed, per the definition of
`batchNext`), so the iterator silently yields zero chunks. -/
theorem batchIter_zero_size (l : List α) :
    batchNext 0 l = none ∧ batchList 0 l = [] := by
  refine ⟨?_, batchList_zero l⟩
  simp [batchNext]

/-! ### CLI options and `Config` (src/main.rs 28-154)

The CLI options relevant to layout (main.rs 28-59); paths are omitted.
`f64` options are modelled as `ℚ`, `u32` options as `Nat` (all CLI `u32`
values are below `2^32`). -/

structure Cli where
  height : Option ℚ
  border : Option ℚ
  margin : Option ℚ
  ppc : Option ℚ
  ppi : Option ℚ
  nh : Option Nat
  nv : Option Nat

/-- The effective density in pixels per centimeter (main.rs 112-116):
`ppi / 2.54` when a PPI value is given (overriding any PPC value), else the
given PPC value, else the default `118.11`. -/
def effectivePpc (cli : Cli) : ℚ :=
  match cli.ppi with
  | some ppi => ppi / 2.54
  | none => cli.ppc.getD 118.11

/-- `target_h_px` before validation (main.rs 124). -/
def target_h_px_raw (cli : Cli) : Nat :=
  u32_of_round (cli.height.getD 5.0 * effectivePpc cli)

/-- `max_h_px` (main.rs 126-129): A4 height 21 cm minus borders and margins,
divided over `n_v` rows, at the effective density. `n_v - 1` is `u32`
subtraction. -/
def max_h_px_val (cli : Cli) : Nat :=
  u32_of_round ((21 - 2 * cli.border.getD 0.8
      - (u32_sub (cli.nv.getD 3) 1 : ℚ) * cli.margin.getD 0.3)
    / (cli.nv.getD 3 : ℚ) * effectivePpc cli)

/-- `max_w_px` (main.rs 131-134): A4 width 29.7 cm, analogously over `n_h`
columns. -/
def max_w_px_val (cli : Cli) : Nat :=
  u32_of_round ((29.7 - 2 * cli.border.getD 0.8
      - (u32_sub (cli.nh.getD 4) 1 : ℚ) * cli.margin.getD 0.3)
    / (cli.nh.getD 4 : ℚ) * effectivePpc cli)

/-- The layout configuration (main.rs 61-80). -/
structure Config where
  ppc : ℚ
  paper_border_px : Nat
  min_margin_v_px : Nat
  min_margin_h_px : Nat
  target_h_px : Nat
  max_h_px : Nat
  max_w_px : Nat
  n_h : Nat
  n_v : Nat

/-- `Config::from_cli_default` (main.rs 99-153): defaults are filled in,
centimeter quantities are multiplied by the effective density and rounded,
and an oversized target height is clamped down to `max_h_px` (main.rs
137-140). -/
def Config.from_cli_default (cli : Cli) : Config :=
  { ppc := effectivePpc cli
    paper_border_px := u32_of_round (cli.border.getD 0.8 * effectivePpc cli)
    min_margin_v_px := u32_of_round (cli.margin.getD 0.3 * effectivePpc cli)
    min_margin_h_px := u32_of_round (cli.margin.getD 0.3 * effectivePpc cli)
    target_h_px :=
      if target_h_px_raw cli > max_h_px_val cli then max_h_px_val cli
      else target_h_px_raw cli
    max_h_px := max_h_px_val cli
    max_w_px := max_w_px_val cli
    n_h := cli.nh.getD 4
    n_v := cli.nv.getD 3 }

theorem u32_of_int_le_max (z : ℤ) : u32_of_int z ≤ U32_MOD - 1 := by
  unfold u32_of_int
  split
  · omega
  · split
    · omega
    · omega

theorem le_u32_of_int (z : ℤ) (m : Nat) (hm : m ≤ U32_MOD - 1) (h : (m : ℤ) < z) :
    m ≤ u32_of_int z := by
  unfold u32_of_int
  split
  · omega
  · split
    · omega
    · omega

/-- Claim C3: after construction `target_h_px ≤ max_h_px` always holds, and
whenever the requested target height in pixels (the rounded
`target_h_cm * ppc`) exceeds the computed max cell height, the effective
target height equals the max cell height exactly. -/
theorem config_clamp (cli : Cli) :
    (Config.from_cli_default cli).target_h_px ≤ (Config.from_cli_default cli).max_h_px ∧
    (((Config.from_cli_default cli).max_h_px : ℤ)
        < rustRound (cli.height.getD 5.0 * effectivePpc cli) →
      (Config.from_cli_default cli).target_h_px = (Config.from_cli_default cli).max_h_px) := by
  simp only [Config.from_cli_default]
  constructor
  · split
    · exact le_refl _
    · omega
  · intro hreq
    have hm : max_h_px_val cli ≤ U32_MOD - 1 := u32_of_int_le_max _
    have hge : max_h_px_val cli ≤ target_h_px_raw cli :=
      le_u32_of_int _ _ hm hreq
    split
    · rfl
    · omega

theorem config_clamp_witness :
    (Config.from_cli_default ⟨some 100, none, none, none, none, none, none⟩).target_h_px
      = (Config.from_cli_default ⟨some 100, none, none, none, none, none, none⟩).max_h_px :=
  (config_clamp ⟨some 100, none, none, none, none, none, none⟩).2 (by
    norm_num [Config.from_cli_default, max_h_px_val, u32_of_round, u32_of_int,
      u32_sub, rustRound, effectivePpc, U32_MOD])

/-! ### Geometry: orientation, grid coordinates, canvas (src/main.rs 194-230, 358-363) -/

/-- Pixel dimensions (width, height) of an image. -/
abbrev Dims := Nat × Nat

/-- `DynamicImage::rotate270` (rotate 90° counter-clockwise) swaps the pixel
dimensions. -/
def rotate270Dims (d : Dims) : Dims := (d.2, d.1)

/-- Orientation step of the `draw_canvas` preprocessing (main.rs 204-210):
a portrait image (height > width) is rotated 270°, any other image is kept
as it is (`image.clone()`). -/
def orientDims (d : Dims) : Dims :=
  if d.2 > d.1 then rotate270Dims d else d

/-- `row_and_col_from_index` (main.rs 358-363): `((idx / nh) as u32,
(idx % nh) as u32)`. `nh = 0` hits an unguarded division by zero, which
panics in Rust; this is modelled as `none`. -/
def row_and_col_from_index (nh idx : Nat) : Option (Nat × Nat) :=
  if nh = 0 then none
  else some ((idx / nh) % U32_MOD, (idx % nh) % U32_MOD)

/-- Placement coordinates `(x, y)` for the image at list position `i`
(main.rs 223-225), in wrapping `u32` arithmetic; `none` models the panic of
`row_and_col_from_index` for a zero column count. -/
def placement (cfg : Config) (i : Nat) : Option (Nat × Nat) :=
  match row_and_col_from_index cfg.n_h i with
  | none => none
  | some (row, col) =>
    some (u32_add cfg.paper_border_px
            (u32_mul col (u32_add cfg.max_w_px cfg.min_margin_h_px)),
          u32_add cfg.paper_border_px
            (u32_mul row (u32_add cfg.max_h_px cfg.min_margin_v_px)))

/-- A composed page: the canvas dimensions and the overlays drawn onto it,
each overlay being the processed image's dimensions together with its
top-left coordinates (main.rs 217-227). -/
structure Canvas where
  width : Nat
  height : Nat
  overlays : List (Dims × Nat × Nat)

/-- `draw_canvas` (main.rs 194-230), with the image crate's bounded-resize
(`DynamicImage::resize`, an external collaborator) left as the parameter
`resize`, applied to the bounding box `(max_w_px, target_h_px)`: every image
is orientation-corrected and resized, a blank canvas of
`ceil(29.7 * ppc) × ceil(21.0 * ppc)` pixels is allocated, and each processed
image is overlaid at its grid coordinates. `none` models the panic on a zero
column count with a nonempty image list. -/
def draw_canvas (resize : Nat → Nat → Dims → Dims) (cfg : Config)
    (images : List Dims) : Option Canvas :=
  let processed := images.map fun d => resize cfg.max_w_px cfg.target_h_px (orientDims d)
  match processed.enum.mapM (fun p => (placement cfg p.1).map fun xy => (p.2, xy)) with
  | none => none
  | some overlays =>
    some ⟨u32_of_ceil (cfg.ppc * 29.7), u32_of_ceil (cfg.ppc * 21.0), overlays⟩

theorem mapM_option_eq_map (f : α → Option β) (g : α → β) (l : List α)
    (h : ∀ a ∈ l, f a = some (g a)) : l.mapM f = some (l.map g) := by
  induction l with
  | nil => rfl
  | cons x xs ih =>
    rw [List.mapM_cons, h x (List.mem_cons_self x xs),
      ih fun a ha => h a (List.mem_cons_of_mem x ha)]
    rfl

theorem placement_eq (cfg : Config) (i : Nat) (hnh : 1 ≤ cfg.n_h) :
    placement cfg i =
      some (u32_add cfg.paper_border_px
              (u32_mul ((i % cfg.n_h) % U32_MOD)
                (u32_add cfg.max_w_px cfg.min_margin_h_px)),
            u32_add cfg.paper_border_px
              (u32_mul ((i / cfg.n_h) % U32_MOD)
                (u32_add cfg.max_h_px cfg.min_margin_v_px))) := by
  unfold placement row_and_col_from_index
  have : ¬ cfg.n_h = 0 := by omega
  simp [this]

/-- In-range `u32` arithmetic does not wrap: the placement formula in plain
arithmetic. -/
theorem u32_formula (b c s t : Nat) (h : b + c * (s + t) < U32_MOD) :
    u32_add b (u32_mul c (u32_add s t)) = b + c * (s + t) := by
  unfold u32_add u32_mul
  rcases Nat.eq_zero_or_pos c with hc | hc
  · subst hc
    simp [Nat.mod_eq_of_lt (show b < U32_MOD by omega)]
  · have hs0 : s + t ≤ c * (s + t) := Nat.le_mul_of_pos_left _ hc
    rw [Nat.mod_eq_of_lt (show s + t < U32_MOD by omega),
      Nat.mod_eq_of_lt (show c * (s + t) < U32_MOD by omega),
      Nat.mod_eq_of_lt h]

theorem enum_map_getElem? (f : Nat × α → β) (l : List α) (i : Nat)
    (h : i < l.length) : (l.enum.map f)[i]? = some (f (i, l[i])) := by
  simp [List.getElem?_map, List.getElem?_enum, List.getElem?_eq_getElem h]

/-- Claim C5: a source image whose height strictly exceeds its width is
rotated 270° before resizing, making the rotated intermediate strictly wider
than tall; an image with height at most its width is not rotated. -/
theorem orientation_spec (w h : Nat) :
    (w < h → orientDims (w, h) = rotate270Dims (w, h)
      ∧ (orientDims (w, h)).2 < (orientDims (w, h)).1) ∧
    (h ≤ w → orientDims (w, h) = (w, h)) := by
  constructor
  · intro hwh
    simp [orientDims, rotate270Dims, hwh]
  · intro hhw
    have : ¬ w < h := by omega
    simp [orientDims, this]

theorem orientation_spec_witness :
    orientDims (2, 5) = rotate270Dims (2, 5)
      ∧ (orientDims (2, 5)).2 < (orientDims (2, 5)).1 :=
  (orientation_spec 2 5).1 (by decide)

/-- Claim C10: `row_and_col_from_index` is total exactly under the
precondition `nh ≥ 1`: it then returns `(idx / nh, idx % nh)` (each cast
`as u32`, which is the identity whenever the quotient fits in `u32`),
while `nh = 0` reaches an unguarded division and modulo by zero (a panic,
modelled as `none`). -/
theorem row_and_col_total (nh idx : Nat) :
    (1 ≤ nh → row_and_col_from_index nh idx
      = some ((idx / nh) % U32_MOD, (idx % nh) % U32_MOD)) ∧
    (1 ≤ nh → nh ≤ U32_MOD → idx / nh < U32_MOD →
      row_and_col_from_index nh idx = some (idx / nh, idx % nh)) ∧
    row_and_col_from_index 0 idx = none := by
  refine ⟨?_, ?_, by simp [row_and_col_from_index]⟩
  · intro h1
    unfold row_and_col_from_index
    have : ¬ nh = 0 := by omega
    simp [this]
  · intro h1 h2 h3
    unfold row_and_col_from_index
    have hne : ¬ nh = 0 := by omega
    have hmod : idx % nh < U32_MOD := by
      have := Nat.mod_lt idx (show 0 < nh by omega)
      omega
    simp [hne, Nat.mod_eq_of_lt h3, Nat.mod_eq_of_lt hmod]

theorem row_and_col_total_witness :
    row_and_col_from_index 4 11 = some (11 / 4, 11 % 4) :=
  (row_and_col_total 4 11).2.1 (by decide) (by decide) (by decide)

/-- Claim C4: the image at position `i` of the list handed to `draw_canvas`
is overlaid at `x = paper_border_px + col * (max_w_px + min_margin_h_px)`,
`y = paper_border_px + row * (max_h_px + min_margin_v_px)` with
`(row, col) = (i / n_h, i % n_h)` — stated first in the wrapping `u32`
arithmetic the code computes in, then in plain arithmetic whenever nothing
wraps — and `row_and_col_from_index` maps `(4, 0) ↦ (0, 0)`,
`(4, 3) ↦ (0, 3)`, `(4, 11) ↦ (2, 3)`. -/
theorem placement_spec (resize : Nat → Nat → Dims → Dims) (cfg : Config)
    (images : List Dims) (i : Nat) (hnh : 1 ≤ cfg.n_h) (hi : i < images.length) :
    (∃ c, draw_canvas resize cfg images = some c ∧
      c.overlays[i]? = some (resize cfg.max_w_px cfg.target_h_px (orientDims images[i]),
        u32_add cfg.paper_border_px
          (u32_mul ((i % cfg.n_h) % U32_MOD) (u32_add cfg.max_w_px cfg.min_margin_h_px)),
        u32_add cfg.paper_border_px
          (u32_mul ((i / cfg.n_h) % U32_MOD) (u32_add cfg.max_h_px cfg.min_margin_v_px))) ∧
      (cfg.n_h ≤ U32_MOD → i / cfg.n_h < U32_MOD →
        cfg.paper_border_px + i % cfg.n_h * (cfg.max_w_px + cfg.min_margin_h_px) < U32_MOD →
        cfg.paper_border_px + i / cfg.n_h * (cfg.max_h_px + cfg.min_margin_v_px) < U32_MOD →
        c.overlays[i]? = some (resize cfg.max_w_px cfg.target_h_px (orientDims images[i]),
          cfg.paper_border_px + i % cfg.n_h * (cfg.max_w_px + cfg.min_margin_h_px),
          cfg.paper_border_px + i / cfg.n_h * (cfg.max_h_px + cfg.min_margin_v_px)))) ∧
    row_and_col_from_index 4 0 = some (0, 0) ∧
    row_and_col_from_index 4 3 = some (0, 3) ∧
    row_and_col_from_index 4 11 = some (2, 3) := by
  refine ⟨?_, by simp [row_and_col_from_index, U32_MOD], by simp [row_and_col_from_index, U32_MOD],
    by simp [row_and_col_from_index, U32_MOD]⟩
  set processed := images.map fun d => resize cfg.max_w_px cfg.target_h_px (orientDims d)
    with hproc
  have hmapM : processed.enum.mapM
      (fun p => (placement cfg p.1).map fun xy => (p.2, xy))
      = some (processed.enum.map fun p =>
          (p.2,
           u32_add cfg.paper_border_px
             (u32_mul ((p.1 % cfg.n_h) % U32_MOD) (u32_add cfg.max_w_px cfg.min_margin_h_px)),
           u32_add cfg.paper_border_px
             (u32_mul ((p.1 / cfg.n_h) % U32_MOD) (u32_add cfg.max_h_px cfg.min_margin_v_px)))) := by
    apply mapM_option_eq_map
    intro p _
    rw [placement_eq cfg p.1 hnh]
    rfl
  have hdc : draw_canvas resize cfg images
      = some ⟨u32_of_ceil (cfg.ppc * 29.7), u32_of_ceil (cfg.ppc * 21.0),
          processed.enum.map fun p =>
            (p.2,
             u32_add cfg.paper_border_px
               (u32_mul ((p.1 % cfg.n_h) % U32_MOD) (u32_add cfg.max_w_px cfg.min_margin_h_px)),
             u32_add cfg.paper_border_px
               (u32_mul ((p.1 / cfg.n_h) % U32_MOD) (u32_add cfg.max_h_px cfg.min_margin_v_px)))⟩ := by
    unfold draw_canvas
    dsimp only
    rw [hmapM]
  have hip : i < processed.length := by simp [hproc, hi]
  have hig : processed[i] = resize cfg.max_w_px cfg.target_h_px (orientDims images[i]) := by
    simp [hproc]
  have hov := enum_map_getElem?
    (fun p : Nat × Dims =>
      (p.2,
       u32_add cfg.paper_border_px
         (u32_mul ((p.1 % cfg.n_h) % U32_MOD) (u32_add cfg.max_w_px cfg.min_margin_h_px)),
       u32_add cfg.paper_border_px
         (u32_mul ((p.1 / cfg.n_h) % U32_MOD) (u32_add cfg.max_h_px cfg.min_margin_v_px))))
    processed i hip
  refine ⟨_, hdc, ?_, ?_⟩
  · rw [hov, hig]
  · intro hn32 hdiv hx hy
    have hcol : (i % cfg.n_h) % U32_MOD = i % cfg.n_h :=
      Nat.mod_eq_of_lt (by
        have := Nat.mod_lt i (show 0 < cfg.n_h by omega)
        omega)
    have hrow : (i / cfg.n_h) % U32_MOD = i / cfg.n_h := Nat.mod_eq_of_lt hdiv
    rw [hov, hig]
    simp only [hcol, hrow,
      u32_formula cfg.paper_border_px (i % cfg.n_h) cfg.max_w_px cfg.min_margin_h_px hx,
      u32_formula cfg.paper_border_px (i / cfg.n_h) cfg.max_h_px cfg.min_margin_v_px hy]

theorem placement_spec_witness :
    row_and_col_from_index 4 0 = some (0, 0) :=
  (placement_spec (fun _ _ d => d) ⟨1, 0, 0, 0, 5, 5, 5, 1, 1⟩ [(3, 2)] 0
    (by decide) (by decide)).2.1

/-! ### Pipeline, progress totals, and top-level error handling
(src/main.rs 178-192, 232-270, 344-350)

File loading (`image::open`) is an external codec; an input is modelled as
its result: either decoded dimensions or an error message. -/

/-- `load_images` (main.rs 178-192): load the batch's images in order by
collecting the per-file results; the first failure aborts with that error
(`Result<Vec<_>, _>` collection). -/
def load_images (inputs : List (Except ε Dims)) : Except ε (List Dims) :=
  match inputs with
  | [] => .ok []
  | r :: rest =>
    match r with
    | .error e => .error e
    | .ok img =>
      match load_images rest with
      | .error e => .error e
      | .ok imgs => .ok (img :: imgs)

/-- How one run ends: normally, with a pipeline error (propagated by `?` and
printed by `main`), or by a panic. -/
inductive RunOutcome (ε : Type) where
  | ok
  | err (e : ε)
  | panic
deriving DecidableEq

/-- The batch loop of `process_with_pb` (main.rs 250-264): for each batch in
order, load its images, compose the page and write it (the returned list is
the sequence of files written as `output_<i>.png`); the first error aborts
the loop, leaving the pages already written in place. -/
def process_batches (resize : Nat → Nat → Dims → Dims) (cfg : Config) :
    List (List (Except ε Dims)) → List Canvas × RunOutcome ε
  | [] => ([], .ok)
  | b :: bs =>
    match load_images b with
    | .error e => ([], .err e)
    | .ok imgs =>
      match draw_canvas resize cfg imgs with
      | none => ([], .panic)
      | some canvas =>
        let r := process_batches resize cfg bs
        (canvas :: r.1, r.2)

/-- The page-output total reported at run start (main.rs 242-245):
`(n_input as f64 / 12 as f64).ceil() as u64`, a ceiling division by the
hard-coded constant `12` (exact in `f64` for any count below `2^53`). -/
def n_batch_reported (n_input : Nat) : Nat := (n_input + 11) / 12

/-- `main` (main.rs 344-350): run the pipeline; print the error, if any, to
the error stream (first component) and return `Ok(())` regardless. -/
def rust_main (r : Except ε Unit) : List ε × Except ε Unit :=
  match r with
  | .error e => ([e], .ok ())
  | .ok _ => ([], .ok ())

theorem draw_canvas_isSome (resize : Nat → Nat → Dims → Dims) (cfg : Config)
    (images : List Dims) (hnh : 1 ≤ cfg.n_h) :
    ∃ c, draw_canvas resize cfg images = some c := by
  unfold draw_canvas
  dsimp only
  rw [mapM_option_eq_map _
    (fun p : Nat × Dims =>
      (p.2,
       u32_add cfg.paper_border_px
         (u32_mul ((p.1 % cfg.n_h) % U32_MOD) (u32_add cfg.max_w_px cfg.min_margin_h_px)),
       u32_add cfg.paper_border_px
         (u32_mul ((p.1 / cfg.n_h) % U32_MOD) (u32_add cfg.max_h_px cfg.min_margin_v_px))))
    _ (fun p _ => by rw [placement_eq cfg p.1 hnh]; rfl)]
  exact ⟨_, rfl⟩

/-- A batch whose files all load gives `.ok`. -/
theorem load_images_ok (imgs : List Dims) :
    load_images (ε := ε) (imgs.map Except.ok) = .ok imgs := by
  induction imgs with
  | nil => rfl
  | cons d ds ih => simp [load_images, ih]

/-- The first failing file aborts the batch load with its error. -/
theorem load_images_first_error (imgs : List Dims) (e : ε)
    (rest : List (Except ε Dims)) :
    load_images (imgs.map Except.ok ++ Except.error e :: rest) = .error e := by
  induction imgs with
  | nil => rfl
  | cons d ds ih => simp [load_images, ih]

theorem process_batches_split (resize : Nat → Nat → Dims → Dims) (cfg : Config)
    (hnh : 1 ≤ cfg.n_h) (good : List (List (Except ε Dims)))
    (bad : List (Except ε Dims)) (rest : List (List (Except ε Dims))) (e : ε)
    (hgood : ∀ b ∈ good, ∃ imgs, load_images b = .ok imgs)
    (hbad : load_images bad = .error e) :
    (process_batches resize cfg (good ++ bad :: rest)).2 = .err e ∧
    (process_batches resize cfg (good ++ bad :: rest)).1.length = good.length := by
  induction good with
  | nil => simp [process_batches, hbad]
  | cons b bs ih =>
    obtain ⟨imgs, hok⟩ := hgood b (List.mem_cons_self b bs)
    obtain ⟨c, hc⟩ := draw_canvas_isSome resize cfg imgs hnh
    have hrec := ih fun b2 hb2 => hgood b2 (List.mem_cons_of_mem b hb2)
    simp only [List.cons_append, process_batches, hok, hc, List.length_cons,
      List.append_eq]
    exact ⟨hrec.1, by rw [hrec.2]⟩

/-- Claim C7: per batch all source images are loaded in order and the first
load/decode failure aborts the entire run: no page is produced for the
failing batch or any later batch, while the pages already written for
earlier batches remain. -/
theorem first_failure_aborts (resize : Nat → Nat → Dims → Dims) (cfg : Config)
    (inputs : List (Except ε Dims)) (good : List (List (Except ε Dims)))
    (bad : List (Except ε Dims)) (rest : List (List (Except ε Dims))) (e : ε)
    (hnh : 1 ≤ cfg.n_h)
    (hsplit : batchList (cfg.n_h * cfg.n_v) inputs = good ++ bad :: rest)
    (hgood : ∀ b ∈ good, ∃ imgs, load_images b = .ok imgs)
    (hbad : load_images bad = .error e) :
    (process_batches resize cfg (batchList (cfg.n_h * cfg.n_v) inputs)).2 = .err e ∧
    (process_batches resize cfg (batchList (cfg.n_h * cfg.n_v) inputs)).1.length
      = good.length ∧
    (∀ (imgs : List Dims) (e2 : ε) (rest2 : List (Except ε Dims)),
      load_images (imgs.map Except.ok ++ Except.error e2 :: rest2) = .error e2) := by
  rw [hsplit]
  have h := process_batches_split resize cfg hnh good bad rest e hgood hbad
  exact ⟨h.1, h.2, fun imgs e2 rest2 => load_images_first_error imgs e2 rest2⟩

theorem first_failure_aborts_witness :
    (process_batches (ε := String) (fun _ _ d => d) ⟨1, 0, 0, 0, 5, 5, 5, 1, 1⟩
      (batchList (1 * 1) [Except.ok (3, 2), Except.error "bad", Except.ok (4, 4)])).2
      = .err "bad" ∧
    (process_batches (ε := String) (fun _ _ d => d) ⟨1, 0, 0, 0, 5, 5, 5, 1, 1⟩
      (batchList (1 * 1) [Except.ok (3, 2), Except.error "bad", Except.ok (4, 4)])).1.length
      = 1 := by
  have h := first_failure_aborts (ε := String) (fun _ _ d => d)
    ⟨1, 0, 0, 0, 5, 5, 5, 1, 1⟩
    [Except.ok (3, 2), Except.error "bad", Except.ok (4, 4)]
    [[Except.ok (3, 2)]] [Except.error "bad"] [[Except.ok (4, 4)]] "bad"
    (by decide)
    (by simp [batchList_eq_next, batchNext])
    (by
      intro b hb
      rw [List.mem_singleton] at hb
      exact ⟨[(3, 2)], by rw [hb]; rfl⟩)
    rfl
  exact ⟨h.1, by simpa using h.2.1⟩

/-- Claim C8: for every run, also one in which the pipeline fails with any
error, the error is printed to the error stream and the process returns a
success exit status (`main` always returns `Ok(())`). -/
theorem main_swallows_error (r : Except ε Unit) :
    (rust_main r).2 = .ok () ∧ (∀ e, r = .error e → (rust_main r).1 = [e]) := by
  cases r with
  | ok u => exact ⟨rfl, fun e h => by cases h⟩
  | error e0 =>
    refine ⟨rfl, fun e h => ?_⟩
    injection h with h1
    rw [rust_main, h1]

theorem main_swallows_error_witness :
    (rust_main (Except.error "boom" : Except String Unit)).1 = ["boom"] :=
  (main_swallows_error (Except.error "boom")).2 "boom" rfl

/-- Claim C2 evaluated on the code: with 13 input files and a 2×2 grid, the
page-output progress total sent in the `NewOutput` event is
`n_batch_reported 13 = ⌈13/12⌉ = 2` (main.rs 243 divides by the hard-coded
constant 12), while the Batching Splitter over batch size `2*2` produces
`⌈13/4⌉ = 4` batches, so 4 pages are written. -/
theorem page_total_mismatch :
    n_batch_reported 13 = 2 ∧
    (batchList (2 * 2) (List.range 13)).length = 4 ∧
    n_batch_reported 13 ≠ (batchList (2 * 2) (List.range 13)).length := by
  have h4 : (batchList (2 * 2) (List.range 13)).length = 4 := by
    rw [batchList_count (2 * 2) (by norm_num) (List.range 13)]
    simp
  exact ⟨rfl, h4, by rw [h4]; decide⟩

/-- Claim C6: the effective density is `ppi / 2.54` whenever a PPI value is
supplied (overriding any PPC value), else the supplied PPC value, else the
default `118.11`; centimeter inputs are converted to pixels by multiplying
by this density and rounding to nearest — a 1 cm input at density 118.11
gives `round 118.11 = 118` px — and PPI 300 gives a density between 118.11
and 118.12 (that is, `300 / 2.54 ≈ 118.11`). -/
theorem unit_converter_spec :
    (∀ h b m pc (p : ℚ) nh nv, effectivePpc ⟨h, b, m, pc, some p, nh, nv⟩ = p / 2.54) ∧
    (∀ h b m (pc : ℚ) nh nv, effectivePpc ⟨h, b, m, some pc, none, nh, nv⟩ = pc) ∧
    (∀ h b m nh nv, effectivePpc ⟨h, b, m, none, none, nh, nv⟩ = 118.11) ∧
    u32_of_round (1 * 118.11) = 118 ∧
    (118.11 ≤ (300 : ℚ) / 2.54 ∧ (300 : ℚ) / 2.54 < 118.12) ∧
    (∀ cli : Cli, (Config.from_cli_default cli).paper_border_px
        = u32_of_round (cli.border.getD 0.8 * effectivePpc cli)
      ∧ (Config.from_cli_default cli).min_margin_v_px
        = u32_of_round (cli.margin.getD 0.3 * effectivePpc cli)
      ∧ (Config.from_cli_default cli).min_margin_h_px
        = u32_of_round (cli.margin.getD 0.3 * effectivePpc cli)) := by
  refine ⟨fun _ _ _ _ _ _ _ => rfl, fun _ _ _ _ _ _ => rfl, fun _ _ _ _ _ => rfl,
    ?_, by constructor <;> norm_num, fun cli => ⟨rfl, rfl, rfl⟩⟩
  norm_num [u32_of_round, u32_of_int, rustRound, U32_MOD]
  decide

theorem unit_converter_spec_witness :
    effectivePpc ⟨none, none, none, some 100, some 300, none, none⟩ = 300 / 2.54 :=
  unit_converter_spec.1 none none none (some 100) 300 none none

theorem batchIter_zero_size_witness :
    batchNext 0 [1, 2, 3] = none ∧ batchList 0 [1, 2, 3] = [] :=
  batchIter_zero_size [1, 2, 3]

end ImageTool
